import Mathlib

/-!
Verification of the result-matching, validation, dedup and ranking pipeline of the
stremio-jackett-enhanced addon.  The definitions below are a shallow embedding of
`torrentProcessorWorker.js` and of the relevant parts of the server sources
(the historical `server.js` revision that defines `normalizeString`,
`calculateMatchScore` and `validateJackettResult`, and the final revision that
defines the worker invocation, the multi-key sort and the `MAX_STREAMS` cut).

Strings are modelled as `List Char`; JS regular-expression scans are embedded as
explicit left-to-right scanning functions with the same leftmost-match /
first-alternative semantics.  JS case mapping is modelled on the ASCII range
(`Char.toLower`), and the JS `\s` class by the ASCII whitespace fragment; all
inputs appearing in the sources and in the concrete scenarios are ASCII.
JS numbers are modelled as `Int`/`ℚ` (divisions such as `Size/2^20` and
`Seeders/10` are exact rational divisions).
-/

namespace StremioJackett

abbrev Str := List Char

/-- JS `\s` character class (ASCII fragment). -/
def isWs (c : Char) : Bool := c.isWhitespace

/-- JS `\w` word-character class `[A-Za-z0-9_]`. -/
def isWordChar (c : Char) : Bool := c.isAlpha || c.isDigit || c == '_'

/-- JS `hay.includes(pat)` substring test. -/
def hasSub : Str → Str → Bool
  | [], pat => pat.isEmpty
  | hay@(_ :: t), pat => pat.isPrefixOf hay || hasSub t pat

/-- Value of a run of decimal digits (used for `parseInt` on an all-digit match). -/
def digitsToNat (l : Str) : Nat := l.foldl (fun a c => 10 * a + (c.toNat - 48)) 0

/-- JS `parseInt(s, 10)`: optional leading whitespace and sign, then decimal
digits; `none` models `NaN`. -/
def parseIntStr (s : String) : Option Int :=
  let t := s.data.dropWhile isWs
  let (neg, t) := match t with
    | '-' :: r => (true, r)
    | '+' :: r => (false, r)
    | r => (false, r)
  let ds := t.takeWhile Char.isDigit
  if ds.isEmpty then none
  else some (if neg then -(digitsToNat ds : Int) else (digitsToNat ds : Int))

/-- JS falsiness of an optional string field (`undefined`/`null`/`""`). -/
def strTruthy (o : Option String) : Bool := !(o.getD "" == "")

/-- JS falsiness of an optional numeric field (`undefined`/`null`/`0`). -/
def natTruthy (o : Option Nat) : Bool := !(o.getD 0 == 0)

/-! ## The worker's title standardization (`standardizeTitle`) -/

def isOpenB (c : Char) : Bool := c == '(' || c == '['
def isCloseB (c : Char) : Bool := c == ')' || c == ']'

/-- Leftmost match of `/[\(\[](\d{4})[\)\]]/`: returns the 6-character matched
substring. -/
def bracketYearMatch : Str → Option Str
  | [] => none
  | c :: rest =>
    match rest with
    | d1 :: d2 :: d3 :: d4 :: e :: _ =>
      if isOpenB c && d1.isDigit && d2.isDigit && d3.isDigit && d4.isDigit && isCloseB e then
        some [c, d1, d2, d3, d4, e]
      else bracketYearMatch rest
    | _ => bracketYearMatch rest

/-- Match of the anchored `/\s(\d{4})$/`: returns the 5-character matched
substring (whitespace character included, as in the JS match). -/
def trailingYearMatch (l : Str) : Option Str :=
  match l.reverse with
  | d4 :: d3 :: d2 :: d1 :: w :: _ =>
    if isWs w && d1.isDigit && d2.isDigit && d3.isDigit && d4.isDigit then
      some [w, d1, d2, d3, d4]
    else none
  | _ => none

/-- JS `s.replace(pat, '')` for a plain-string first argument: remove the first
occurrence of `pat`. -/
def replaceFirst : Str → Str → Str
  | [], _ => []
  | c :: rest, pat =>
    if pat.isPrefixOf (c :: rest) then (c :: rest).drop pat.length
    else c :: replaceFirst rest pat

/-- JS `String.prototype.trim`. -/
def trimWs (l : Str) : Str := (l.dropWhile isWs).rdropWhile isWs

/-- Scan for `replaceRuns`: `inRun` records whether the previous character was
in the class (so a continuing run emits nothing). -/
def replaceRunsGo (cls : Char → Bool) : Bool → Str → Str
  | _, [] => []
  | inRun, c :: rest =>
    if cls c then
      if inRun then replaceRunsGo cls true rest
      else ' ' :: replaceRunsGo cls true rest
    else c :: replaceRunsGo cls false rest

/-- Global replacement of maximal runs of `cls`-characters by a single space,
JS `s.replace(/[cls]+/g, ' ')`. -/
def replaceRuns (cls : Char → Bool) (l : Str) : Str := replaceRunsGo cls false l

/-- `standardizeTitle` step 2: `[^\w\s]` replaced by a space. -/
def punctReplace (l : Str) : Str :=
  l.map (fun c => if isWordChar c || isWs c then c else ' ')

/-- Characters collapsed by `/[\s\.\-]+/g`. -/
def sepCls (c : Char) : Bool := isWs c || c == '.' || c == '-'

def sepCollapse (l : Str) : Str := trimWs (replaceRuns sepCls l)
def wsCollapse (l : Str) : Str := trimWs (replaceRuns isWs l)

/-! ### The release-tag vocabulary of `standardizeTitle` -/

/-- One alternative of the tag-stripping regex: a literal word, or one of the
patterns `s\d{2}e\d{2}`, `s\d{2}`, `e\d{2}`. -/
inductive TagPat where
  | lit (w : Str)
  | sddedd
  | sdd
  | edd

set_option maxHeartbeats 2000000 in
/-- The alternatives of the tag regex, in source order.  The alternative
`director's cut` is spelled with `Char.ofNat 39` (apostrophe). -/
def tagOrder : List TagPat :=
  [.lit "hdrip".data, .lit "webrip".data, .lit "web-dl".data, .lit "x264".data,
   .lit "x265".data, .lit "h264".data, .lit "h265".data, .lit "aac".data,
   .lit "ac3".data, .lit "dts".data, .lit "bluray".data, .lit "dvdrip".data,
   .lit "brrip".data, .lit "bdrip".data, .lit "repack".data, .lit "proper".data,
   .lit "internal".data, .lit "ita".data, .lit "eng".data, .lit "dubbed".data,
   .lit "subbed".data, .lit "multi".data, .lit "german".data, .lit "french".data,
   .lit "spanish".data, .lit "hindi".data, .lit "tamil".data, .lit "korean".data,
   .lit "japanese".data, .lit "chinese".data, .lit "kannada".data,
   .lit "malayalam".data, .lit "telugu".data, .lit "720p".data, .lit "1080p".data,
   .lit "2160p".data, .lit "4k".data, .lit "uhd".data, .lit "fhd".data,
   .lit "mp4".data, .lit "mkv".data, .lit "avi".data, .lit "xvid".data,
   .lit "hevc".data, .lit "remux".data, .lit "extended".data,
   .lit ("director".data ++ [Char.ofNat 39] ++ "s cut".data), .lit "uncut".data,
   .lit "unrated".data, .sddedd, .sdd, .edd, .lit "freeleech".data,
   .lit "true".data, .lit "ddp".data, .lit "hdr".data, .lit "dts-hd".data,
   .lit "ma".data, .lit "atmos".data, .lit "xvid".data, .lit "av1".data,
   .lit "rip".data, .lit "by".data, .lit "rg".data, .lit "uh".data,
   .lit "etrg".data, .lit "ethd".data, .lit "t0m".data, .lit "war".data,
   .lit "din".data, .lit "hurtom".data, .lit "rutracker".data,
   .lit "generalfilm".data, .lit "nahom".data, .lit "edge2020".data,
   .lit "xvi".data, .lit "mp3".data, .lit "eac3".data, .lit "subs".data]

/-- Length consumed by one tag alternative at the head of `l`, if it matches. -/
def matchTag : TagPat → Str → Option Nat
  | .lit w, l => if w.isPrefixOf l then some w.length else none
  | .sddedd, 's' :: a :: b :: 'e' :: c :: d :: _ =>
    if a.isDigit && b.isDigit && c.isDigit && d.isDigit then some 6 else none
  | .sddedd, _ => none
  | .sdd, 's' :: a :: b :: _ =>
    if a.isDigit && b.isDigit then some 3 else none
  | .sdd, _ => none
  | .edd, 'e' :: a :: b :: _ =>
    if a.isDigit && b.isDigit then some 3 else none
  | .edd, _ => none

/-- The `\b` assertion after the matched group: end of input or a non-word
character next. -/
def boundaryAfter (l : Str) (n : Nat) : Bool :=
  match l.drop n with
  | [] => true
  | c :: _ => !isWordChar c

/-- First alternative (in regex order) matching at the head of `l` with a word
boundary after it; returns the consumed length. -/
def tryTagsGo : List TagPat → Str → Option Nat
  | [], _ => none
  | t :: ts, l =>
    match matchTag t l with
    | some n => if boundaryAfter l n then some n else tryTagsGo ts l
    | none => tryTagsGo ts l

def tryTags (l : Str) : Option Nat := tryTagsGo tagOrder l

/-- One global pass of the tag regex, each match replaced by a space; fuelled
scan (the fuel `l.length` always suffices since matches are non-empty). -/
def stripTagsGo : Nat → Str → Str
  | 0, l => l
  | _ + 1, [] => []
  | fuel + 1, c :: rest =>
    match tryTags (c :: rest) with
    | some n => ' ' :: stripTagsGo fuel ((c :: rest).drop n)
    | none => c :: stripTagsGo fuel rest

def stripTags (l : Str) : Str := stripTagsGo l.length l

/-- Fuelled scan for `removeYearRuns` (the fuel `l.length` always suffices
since each step consumes at least one character). -/
def removeYearRunsGo (ds : Str) : Nat → Str → Str
  | 0, l => l
  | _ + 1, [] => []
  | fuel + 1, c :: rest =>
    if isWs c && ds.isPrefixOf rest &&
       (match (rest.drop ds.length).head? with
        | some w' => isWs w'
        | none => false) then
      ' ' :: removeYearRunsGo ds fuel (rest.drop (ds.length + 1))
    else c :: removeYearRunsGo ds fuel rest

/-- Global replacement of `/\s<digits>\s/g` by a single space (the
`extractedYear` removal step); the scan resumes after each match. -/
def removeYearRuns (ds : Str) (l : Str) : Str := removeYearRunsGo ds l.length l

/-- The normalization pipeline of `standardizeTitle` after year extraction:
lower-casing, punctuation and separator normalization, release-tag stripping,
year removal, whitespace collapse. -/
def standardizeCore (yr : Option Nat) (t1 : Str) : Str :=
  let s1 := t1.map Char.toLower
  let s2 := punctReplace s1
  let s3 := sepCollapse s2
  let s4 := stripTags s3
  let s5 :=
    match yr with
    | some y => if y == 0 then s4 else removeYearRuns (Nat.repr y).data s4
    | none => s4
  wsCollapse s5

/-- The worker's `standardizeTitle`: year extraction, lower-casing, punctuation
and separator normalization, release-tag stripping, year removal, whitespace
collapse.  Returns the standardized title and the extracted year. -/
def standardizeTitle (title : Str) : Str × Option Nat :=
  let (t1, yr) :=
    match bracketYearMatch title with
    | some m => (trimWs (replaceFirst title m), some (digitsToNat (m.drop 1 |>.take 4)))
    | none =>
      match trailingYearMatch title with
      | some m => (trimWs (replaceFirst title m), some (digitsToNat m.tail))
      | none => (title, none)
  (standardizeCore yr t1, yr)

/-- `standardizeTitle` on `String`s. -/
def standardizeTitleS (title : String) : String × Option Nat :=
  let r := standardizeTitle title.data
  (String.mk r.1, r.2)

/-- The characters a standardized title can consist of: lower-case-stable word
characters and the plain space. -/
def normChar (c : Char) : Prop := (isWordChar c = true ∧ c.toLower = c) ∨ c = ' '

/-! ## The worker's relevance validator (`validateTorrentTitle`) -/

/-- JS `String(n).padStart(2, '0')`. -/
def pad2 (n : Nat) : Str :=
  let s := (Nat.repr n).data
  List.replicate (2 - s.length) '0' ++ s

/-- The `{ title, year, type }` metadata object handed to the worker. -/
structure WMetadata where
  title : String
  year : Option String
  mtype : String

/-- The worker's `validateTorrentTitle(metadata, season, episode, torrentTitle)`. -/
def validateTorrentTitle (md : Option WMetadata) (season episode : Option Nat)
    (torrentTitle : String) : Bool :=
  match md with
  | none => false
  | some m =>
    if m.title == "" then false
    else
      let e := standardizeTitle m.title.data
      let t := standardizeTitle torrentTitle.data
      if !hasSub t.1 e.1 then false
      else if m.mtype == "movie" then
        if natTruthy e.2 && natTruthy t.2 && !(e.2.getD 0 == t.2.getD 0) then false
        else true
      else if m.mtype == "series" then
        if natTruthy season && natTruthy episode then
          let marker := 's' :: (pad2 (season.getD 0) ++ 'e' :: pad2 (episode.getD 0))
          if !hasSub t.1 marker then false else true
        else true
      else true

/-! ## The worker's attribute extraction (`parseTorrentDetails` and friends) -/

/-- `getTorrentLanguage`'s tag table, in object-literal (= iteration) order. -/
def languageMap : List (String × String) :=
  [("eng", "english"), ("english", "english"), ("hin", "hindi"), ("hindi", "hindi"),
   ("tam", "tamil"), ("tamil", "tamil"), ("mal", "malayalam"), ("malayalam", "malayalam"),
   ("kan", "kannada"), ("kannada", "kannada"), ("tel", "telugu"), ("telugu", "telugu"),
   ("chn", "chinese"), ("chinese", "chinese"), ("kor", "korean"), ("korean", "korean"),
   ("spa", "spanish"), ("spanish", "spanish"), ("ger", "german"), ("german", "german"),
   ("jpn", "japanese"), ("japanese", "japanese"), ("ukr", "ukrainian"),
   ("ukrainian", "ukrainian"), ("ita", "italian"), ("italian", "italian"),
   ("fre", "french"), ("french", "french"), ("duo", "dual-audio"),
   ("multi", "multi-language")]

/-- The worker's `getTorrentLanguage`. -/
def getTorrentLanguage (torrentTitle : String) : Option String :=
  let lower := torrentTitle.data.map Char.toLower
  (languageMap.find? (fun kv => hasSub lower kv.1.data || hasSub lower kv.2.data)).map
    (fun kv => kv.2)

/-- One attempt of `/(\d{3,4}p|4k|uhd|fhd)/` at the head of `l` (greedy digit
count, alternatives in regex order). -/
def matchResAt (l : Str) : Option Str :=
  (match l with
   | a :: b :: c :: d :: e :: _ =>
     if a.isDigit && b.isDigit && c.isDigit && d.isDigit && e == 'p' then
       some [a, b, c, d, e]
     else none
   | _ => none).orElse (fun _ =>
  (match l with
   | a :: b :: c :: d :: _ =>
     if a.isDigit && b.isDigit && c.isDigit && d == 'p' then some [a, b, c, d] else none
   | _ => none).orElse (fun _ =>
  (if "4k".data.isPrefixOf l then some "4k".data else none).orElse (fun _ =>
  (if "uhd".data.isPrefixOf l then some "uhd".data else none).orElse (fun _ =>
  if "fhd".data.isPrefixOf l then some "fhd".data else none))))

/-- Leftmost match of the resolution regex. -/
def findRes : Str → Option Str
  | [] => none
  | l@(_ :: rest) => (matchResAt l).orElse (fun _ => findRes rest)

/-- The video-quality vocabulary, in regex-alternation order. -/
def videoVocab : List Str :=
  ["remux".data, "bluray".data, "bdrip".data, "web-dl".data, "webrip".data,
   "hdrip".data, "hdtv".data, "dvdrip".data, "x264".data, "x265".data,
   "hevc".data, "hdr".data, "xvid".data, "av1".data]

/-- First vocabulary word (in order) that is a prefix of `l`. -/
def firstPrefixOf (vocab : List Str) (l : Str) : Option Str :=
  vocab.findSome? (fun w => if w.isPrefixOf l then some w else none)

/-- All matches of a global regex scan (leftmost, resuming after each match);
fuelled by the input length, which suffices since matches are non-empty. -/
def scanMatches (matchAt : Str → Option Str) : Nat → Str → List String
  | 0, _ => []
  | _ + 1, [] => []
  | fuel + 1, l@(_ :: rest) =>
    match matchAt l with
    | some m => String.mk m :: scanMatches matchAt fuel (l.drop m.length)
    | none => scanMatches matchAt fuel rest

/-- Core alternatives of the audio regex, in order
(`truehd|dts-hd|atmos|dts|eac3|ddp|ac3|aac|mp3|(\d\.\d)|(ch)`). -/
def matchAudioCoreAt (l : Str) : Option Str :=
  (firstPrefixOf
    ["truehd".data, "dts-hd".data, "atmos".data, "dts".data, "eac3".data,
     "ddp".data, "ac3".data, "aac".data, "mp3".data] l).orElse (fun _ =>
  (match l with
   | a :: '.' :: b :: _ => if a.isDigit && b.isDigit then some [a, '.', b] else none
   | _ => none).orElse (fun _ =>
  if "ch".data.isPrefixOf l then some "ch".data else none))

/-- One audio-regex attempt including the optional greedy `(\s*(ma))?` suffix. -/
def matchAudioAt (l : Str) : Option Str :=
  (matchAudioCoreAt l).map (fun core =>
    let rest := l.drop core.length
    let run := rest.takeWhile isWs
    if "ma".data.isPrefixOf (rest.drop run.length) then core ++ run ++ "ma".data
    else core)

structure ParsedDetails where
  resolution : Option String
  videoQuality : Option String
  audioQuality : Option String
  language : Option String
deriving DecidableEq

/-- First configured preference present among the matches, else the first match
(`parseTorrentDetails`' selection loop). -/
def pickPreferred (prefs : List String) (ms : List String) : Option String :=
  (prefs.find? (fun p => ms.contains p)).orElse (fun _ => ms.head?)

/-- The worker's `parseTorrentDetails` (depends on the preference lists that the
worker stores as globals from the batch configuration). -/
def parseTorrentDetails (videoPrefs audioPrefs : List String) (title : String) :
    ParsedDetails :=
  let lower := title.data.map Char.toLower
  let res := (findRes lower).map (fun r =>
    if r = "4k".data || r = "uhd".data || r = "fhd".data then "2160p" else String.mk r)
  let vms := scanMatches (firstPrefixOf videoVocab) lower.length lower
  let vq := if vms.isEmpty then none else pickPreferred videoPrefs vms
  let ams := scanMatches matchAudioAt lower.length lower
  let aq := if ams.isEmpty then none else pickPreferred audioPrefs ams
  ⟨res, vq, aq, getTorrentLanguage title⟩

/-- The worker's `getResolutionRank`. -/
def getResolutionRank : Option String → Nat
  | some "2160p" => 4
  | some "1080p" => 3
  | some "720p" => 2
  | some "576p" => 1
  | some "480p" => 1
  | _ => 0

/-- The worker's `getVideoQualityRank`. -/
def getVideoQualityRank (prefs : List String) : Option String → Nat
  | none => 0
  | some q =>
    if q == "" then 0
    else
      match prefs.findIdx? (fun p => p == q) with
      | some i => prefs.length - i
      | none => 0

/-- The worker's `getAudioQualityRank`. -/
def getAudioQualityRank (prefs : List String) : Option String → Nat
  | none => 0
  | some q =>
    if q == "" then 0
    else
      match prefs.findIdx? (fun p => p == q) with
      | some i => prefs.length - i
      | none => 0

/-! ## The worker's per-record pipeline (the `parentPort.on('message')` loop) -/

/-- The configuration bundle posted to the worker. -/
structure WConfig where
  minimumSeeders : Int
  minSizeMB : ℚ
  maxSizeMB : ℚ
  preferredLanguages : List String
  videoPrefs : List String
  audioPrefs : List String

/-- One raw Jackett record as consumed by the worker (fields read through
`simpleGet`; the `PublishedDate` validity check is abstracted into an
`Option Int` timestamp). -/
structure RawResult where
  title : Option String
  infoHash : Option String
  magnetUri : Option String
  seeders : Option Int
  size : Option Int
  publishedDate : Option Int
  resolution : Option String
  quality : Option String
  audioChannels : Option String
  language : Option String
deriving DecidableEq

/-- Leftmost match of `/btih:([^&/]+)/` (capture group). -/
def extractBtih : Str → Option Str
  | [] => none
  | l@(_ :: rest) =>
    if "btih:".data.isPrefixOf l then
      let cap := (l.drop 5).takeWhile (fun c => !(c == '&' || c == '/'))
      if cap.isEmpty then extractBtih rest else some cap
    else extractBtih rest

/-- The content identifier the worker derives: declared `InfoHash`, else the
`btih:` segment of the magnet URI; lower-cased. -/
def derivedHash (r : RawResult) : Option String :=
  let cand : Option String :=
    if strTruthy r.infoHash then r.infoHash
    else
      match r.magnetUri with
      | some m => (extractBtih m.data).map String.mk
      | none => none
  match cand with
  | some h => if h == "" then none else some (String.mk (h.data.map Char.toLower))
  | none => none

/-- Magnet URI built for a stream (percent-encoding of tracker URLs elided;
no claim depends on the link text). -/
def buildMagnet (hash : String) (trackers : List String) : String :=
  "magnet:?xt=urn:btih:" ++ hash ++ "&" ++
    String.intercalate "&" (trackers.map (fun t => "tr=" ++ t))

/-- A processed stream as pushed by the worker. -/
structure WStream where
  originalResult : RawResult
  magnetLink : String
  infoHash : String
  parsedDetails : ParsedDetails
  resolutionRank : Nat
  videoQualityRank : Nat
  audioQualityRank : Nat
  hasPreferredLanguage : Bool
  effectivePublishedDate : Option Int
deriving DecidableEq

/-- The worker loop's mutable state: `processedStreams` and
`processedInfoHashes` (the set modelled as the list of inserted hashes). -/
structure WState where
  streams : List WStream
  hashes : List String
deriving DecidableEq

/-- One iteration body of the worker's result loop, as the optional stream it
produces given the already-seen hashes; `none` models every `continue`. -/
def processResult (cfg : WConfig) (md : Option WMetadata) (season episode : Option Nat)
    (trackers : List String) (seen : List String) (r : RawResult) : Option WStream :=
  let title := r.title.getD ""
  let lower := title.data.map Char.toLower
  if hasSub lower "ts".data || hasSub lower "telecine".data then none
  else if !strTruthy r.infoHash && !strTruthy r.magnetUri then none
  else
    match derivedHash r with
    | none => none
    | some h =>
      if seen.contains h then none
      else if !validateTorrentTitle md season episode title then none
      else
        let parsed := parseTorrentDetails cfg.videoPrefs cfg.audioPrefs title
        let res := if strTruthy r.resolution then r.resolution else parsed.resolution
        let vq := if strTruthy r.quality then r.quality else parsed.videoQuality
        let aq := if strTruthy r.audioChannels then r.audioChannels else parsed.audioQuality
        let lang := if strTruthy r.language then r.language else parsed.language
        if getResolutionRank res < getResolutionRank (some "720p") then none
        else if r.seeders.getD 0 < cfg.minimumSeeders then none
        else
          let sizeMB : ℚ := (r.size.getD 0 : ℚ) / (1024 * 1024)
          if sizeMB < cfg.minSizeMB || sizeMB > cfg.maxSizeMB then none
          else if decide (0 < cfg.preferredLanguages.length) &&
                  (!strTruthy lang || !cfg.preferredLanguages.contains (lang.getD "")) then
            none
          else
            some ⟨r, buildMagnet h trackers, h, ⟨res, vq, aq, lang⟩,
                  getResolutionRank res, getVideoQualityRank cfg.videoPrefs vq,
                  getAudioQualityRank cfg.audioPrefs aq,
                  decide (0 < cfg.preferredLanguages.length) && strTruthy lang &&
                    cfg.preferredLanguages.contains (lang.getD ""),
                  r.publishedDate⟩

/-- One iteration of the worker loop on the loop state. -/
def processOne (cfg : WConfig) (md : Option WMetadata) (season episode : Option Nat)
    (trackers : List String) (st : WState) (r : RawResult) : WState :=
  match processResult cfg md season episode trackers st.hashes r with
  | none => st
  | some s => ⟨st.streams ++ [s], st.hashes ++ [s.infoHash]⟩

/-- The worker's whole batch loop. -/
def runWorker (cfg : WConfig) (md : Option WMetadata) (season episode : Option Nat)
    (trackers : List String) (rs : List RawResult) : WState :=
  rs.foldl (processOne cfg md season episode trackers) ⟨[], []⟩

/-- The list of streams the worker posts back for a batch. -/
def processBatch (cfg : WConfig) (md : Option WMetadata) (season episode : Option Nat)
    (trackers : List String) (rs : List RawResult) : List WStream :=
  (runWorker cfg md season episode trackers rs).streams

/-- The worker-loop invariant: the seen-hash set is exactly the list of
info-hashes of the pushed streams, in order. -/
def stateInv (st : WState) : Prop :=
  st.hashes = st.streams.map (fun s => s.infoHash)

/-! ## The main thread's final sort, truncation and worker-failure handling
(final revision of `server.js`) -/

def seedersOf (s : WStream) : Int := s.originalResult.seeders.getD 0

/-- `effectivePublishedDate ? getTime() : 0` (missing dates sort as epoch 0). -/
def dateKey (s : WStream) : Int := s.effectivePublishedDate.getD 0

/-- The stream handler's sort comparator, translated branch by branch. -/
def codeCmp (a b : WStream) : Int :=
  if seedersOf b ≠ seedersOf a then seedersOf b - seedersOf a
  else if dateKey b ≠ dateKey a then dateKey b - dateKey a
  else if a.hasPreferredLanguage && !b.hasPreferredLanguage then -1
  else if !a.hasPreferredLanguage && b.hasPreferredLanguage then 1
  else if a.resolutionRank ≠ b.resolutionRank then
    (b.resolutionRank : Int) - (a.resolutionRank : Int)
  else if a.videoQualityRank ≠ b.videoQualityRank then
    (b.videoQualityRank : Int) - (a.videoQualityRank : Int)
  else if a.audioQualityRank ≠ b.audioQualityRank then
    (b.audioQualityRank : Int) - (a.audioQualityRank : Int)
  else 0

/-- `a` sorts no later than `b` under the comparator (JS `Array#sort` is stable;
the sort is modelled by the stable `List.mergeSort`). -/
def codeLe (a b : WStream) : Bool := decide (codeCmp a b ≤ 0)

def finalSortedCandidates (l : List WStream) : List WStream := l.mergeSort codeLe

/-- The `for (i < Math.min(length, MAX_STREAMS))` delivery loop, as the selected
candidates in order (their per-item display formatting is elided). -/
def deliveredCandidates (maxStreams : Nat) (l : List WStream) : List WStream :=
  (finalSortedCandidates l).take maxStreams

/-- The specification's multi-key comparator, written key by key as the spec
words it: primary key declared seed count descending, publish date descending
with missing dates as epoch zero, preferred-language match (true first),
resolution rank descending, video-quality rank descending, audio-quality rank
descending, seed count descending as final tie-break, ties stable. -/
def specLe (a b : WStream) : Bool :=
  if seedersOf b ≠ seedersOf a then decide (seedersOf b < seedersOf a)
  else if dateKey b ≠ dateKey a then decide (dateKey b < dateKey a)
  else if a.hasPreferredLanguage && !b.hasPreferredLanguage then true
  else if !a.hasPreferredLanguage && b.hasPreferredLanguage then false
  else if a.resolutionRank ≠ b.resolutionRank then decide (b.resolutionRank < a.resolutionRank)
  else if a.videoQualityRank ≠ b.videoQualityRank then
    decide (b.videoQualityRank < a.videoQualityRank)
  else if a.audioQualityRank ≠ b.audioQualityRank then
    decide (b.audioQualityRank < a.audioQualityRank)
  else if seedersOf b ≠ seedersOf a then decide (seedersOf b < seedersOf a)
  else true

/-- What the worker posts back: a stream list, or the structured error of the
outer `catch`. -/
inductive WorkerMessage where
  | success (streams : List WStream)
  | failure (message : String) (stack : String)

/-- The observable settlement of one worker run: a posted message, a transport
(`error` event) failure, or a non-zero exit (the code rejects exactly on
`code !== 0`). -/
inductive WorkerOutcome where
  | posted (m : WorkerMessage)
  | transportError (message : String)
  | exitNonZero (code : Int)

/-- `processTorrentsInWorker`'s promise: resolves with the posted streams,
rejects on a posted structured error, a worker `error` event, or a non-zero
exit code. -/
def processTorrentsInWorker : WorkerOutcome → Except String (List WStream)
  | .posted (.success s) => .ok s
  | .posted (.failure m stk) => .error ("Worker Error: " ++ m ++ " " ++ stk)
  | .transportError m => .error m
  | .exitNonZero c => .error ("Worker thread exited unexpectedly with code " ++ toString c)

/-- The stream handler around the worker call: on success the sorted and
truncated candidates, on any rejection the `catch` substitutes the empty
stream list (no retry; the handler is a single-shot function of the single
worker outcome). -/
def handleStreamRequest (maxStreams : Nat) (o : WorkerOutcome) : List WStream :=
  match processTorrentsInWorker o with
  | .ok streams => deliveredCandidates maxStreams streams
  | .error _ => []

/-! ## The first `server.js` revision: `normalizeString`, `extractResolution`,
`extractLanguage`, `calculateMatchScore`, `validateJackettResult` -/

/-- `Math.max` on exact rationals (spelled out so that it kernel-reduces). -/
def ratMax (a b : ℚ) : ℚ := if a ≤ b then b else a

/-- `Math.min` on exact rationals (spelled out so that it kernel-reduces). -/
def ratMin (a b : ℚ) : ℚ := if a ≤ b then a else b

/-- `normalizeString(str, true)` (aggressive): lower-case, keep `[a-z0-9]`. -/
def normalizeStringAgg (s : String) : Str :=
  (s.data.map Char.toLower).filter (fun c => c.isLower || c.isDigit)

/-- Leftmost match of `/\b(\d{4})\b/`; `prevWord` records whether the previous
character was a word character (for the left `\b`). -/
def findYearTokenGo (prevWord : Bool) : Str → Option Str
  | [] => none
  | x :: rest =>
    (if !prevWord then
       match x :: rest with
       | a :: b :: c :: d :: tail =>
         if a.isDigit && b.isDigit && c.isDigit && d.isDigit &&
            (match tail.head? with
             | some n => !isWordChar n
             | none => true) then
           some [a, b, c, d]
         else none
       | _ => none
     else none).orElse (fun _ => findYearTokenGo (isWordChar x) rest)

/-- `item.Title ? (item.Title.match(/\b(\d{4})\b/) ? [1] : null) : null`. -/
def itemYearMatch (title : Option String) : Option String :=
  match title with
  | some t => if t == "" then none else (findYearTokenGo false t.data).map String.mk
  | none => none

/-- `extractResolution` of the first server revision: ordered case-insensitive
substring tests of `RESOLUTION_PATTERNS`. -/
def extractResolution (title : String) : Option String :=
  let l := title.data.map Char.toLower
  if hasSub l "2160p".data || hasSub l "4k".data || hasSub l "uhd".data then some "2160p"
  else if hasSub l "1080p".data || hasSub l "fhd".data then some "1080p"
  else if hasSub l "720p".data || hasSub l "hd".data then some "720p"
  else if hasSub l "480p".data || hasSub l "sd".data then some "480p"
  else none

/-- One pattern character of a `LANGUAGE_PATTERNS` alternative: a literal
character or the regex `.` (any character save line terminators). -/
inductive PatC where
  | ch (c : Char)
  | anyc

def lits (s : String) : List PatC := s.data.map PatC.ch

/-- The `LANGUAGE_PATTERNS` table in object order: for each language the
alternation list (patterns lower-case; matching is case-insensitive). -/
def langAlts : List (List (List PatC) × String) :=
  [([lits "eng", lits "english", lits "en"], "English"),
   ([lits "hin", lits "hindi", lits "हिंदी", lits "h" ++ [PatC.anyc] ++ lits "indi"], "Hindi"),
   ([lits "tam", lits "tamil", lits "தமிழ்"], "Tamil"),
   ([lits "mal", lits "malayalam", lits "മലയാളം"], "Malayalam"),
   ([lits "tel", lits "telugu", lits "తెలుగు"], "Telugu"),
   ([lits "jpn", lits "japanese", lits "日本語", lits "ja"], "Japanese"),
   ([lits "kor", lits "korean", lits "한국어", lits "ko"], "Korean"),
   ([lits "chi", lits "chinese", lits "中文", lits "zh"], "Chinese")]

/-- Match one alternative at the head of `l`; returns the last consumed
character and the following character (for the trailing `\b`). -/
def altMatch : Option Char → List PatC → Str → Option (Char × Option Char)
  | prev, [], l =>
    (match prev with
     | some p => some (p, l.head?)
     | none => none)
  | _, _ :: _, [] => none
  | _, p :: ps, c :: rest =>
    match p with
    | .ch a => if c == a then altMatch (some c) ps rest else none
    | .anyc => if c == '\n' || c == '\r' then none else altMatch (some c) ps rest

/-- The `\b` assertion between the last matched character and the next one. -/
def boundaryOk (p : Char) (n : Option Char) : Bool :=
  isWordChar p != (match n with | some c => isWordChar c | none => false)

def langTestAt (alts : List (List PatC)) (l : Str) : Bool :=
  alts.any (fun a =>
    match altMatch none a l with
    | some pn => boundaryOk pn.1 pn.2
    | none => false)

/-- `LANGUAGE_PATTERNS[lang].test(title)`. -/
def langTest (alts : List (List PatC)) : Str → Bool
  | [] => false
  | l@(_ :: rest) => langTestAt alts l || langTest alts rest

/-- `extractLanguage` of the first server revision. -/
def extractLanguage (title : String) : Option String :=
  let lower := title.data.map Char.toLower
  (langAlts.find? (fun la => langTest la.1 lower)).map (fun la => la.2)

/-- A raw Jackett item as consumed by the first revision's scorer/validator
(`Title`, `MagnetUri`, `Seeders`, `Size`). -/
structure V1Item where
  title : Option String
  magnetUri : Option String
  seeders : Int
  size : Int

/-- Metadata from OMDB/TMDB: `title`, `year` (a string), `akaTitles`,
`imdbId`, `tmdbId`. -/
structure V1Metadata where
  title : Option String
  year : Option String
  akaTitles : List String
  imdbId : Option String
  tmdbId : Option Int

/-- The configuration slice used by `validateJackettResult`. -/
structure V1Config where
  maxSize : Int
  preferredResolutions : List String
  preferredLanguages : List String

/-- `calculateMatchScore`, translated accumulation step by accumulation step. -/
def calculateMatchScore (item : V1Item) (md : V1Metadata) : ℚ :=
  let nit := normalizeStringAgg (item.title.getD "")
  let iy := itemYearMatch item.title
  let npt := normalizeStringAgg (md.title.getD "")
  let akas := md.akaTitles.map (fun t => normalizeStringAgg t)
  let yearEq := strTruthy md.year && (iy == md.year)
  let s1 : ℚ :=
    if !npt.isEmpty && hasSub nit npt && yearEq then 100
    else if !npt.isEmpty && hasSub nit npt then 50
    else 0
  let s2 := akas.foldl (fun acc aka =>
    if !aka.isEmpty && hasSub nit aka && yearEq then acc + 40
    else if !aka.isEmpty && hasSub nit aka then acc + 20
    else acc) s1
  let s3 := if !npt.isEmpty && nit == npt then s2 + 10 else s2
  let s4 :=
    if strTruthy md.imdbId && hasSub nit (normalizeStringAgg (md.imdbId.getD "")) then
      s3 + 15
    else s3
  let s5 :=
    match md.tmdbId with
    | some tid =>
      if tid != 0 && hasSub nit (normalizeStringAgg (toString tid)) then s4 + 10 else s4
    | none => s4
  let s6 :=
    if strTruthy md.year && iy.isSome && !(iy == md.year) &&
       (hasSub nit npt || akas.any (fun t => hasSub nit t)) then s5 - 30
    else s5
  let s7 := s6 + ratMin ((item.seeders : ℚ) / 10) 5
  ratMax 0 s7

/-- The additive scoring model exactly as the claim words it: +100 containment
with matching year else +50, +40/+20 per alternate title, +15 for the canonical
identifier, −30 for a disagreeing year over a matched title, plus
`min(seeders/10, 5)`, floored at 0.  (No exact-title bonus, no TMDB bonus.) -/
def claimedMatchScore (item : V1Item) (md : V1Metadata) : ℚ :=
  let nit := normalizeStringAgg (item.title.getD "")
  let iy := itemYearMatch item.title
  let npt := normalizeStringAgg (md.title.getD "")
  let akas := md.akaTitles.map (fun t => normalizeStringAgg t)
  let yearEq := strTruthy md.year && (iy == md.year)
  let titleTerm : ℚ :=
    if !npt.isEmpty && hasSub nit npt && yearEq then 100
    else if !npt.isEmpty && hasSub nit npt then 50
    else 0
  let akaTerm : ℚ := (akas.map (fun aka =>
    if !aka.isEmpty && hasSub nit aka && yearEq then (40 : ℚ)
    else if !aka.isEmpty && hasSub nit aka then 20
    else 0)).sum
  let idTerm : ℚ :=
    if strTruthy md.imdbId && hasSub nit (normalizeStringAgg (md.imdbId.getD "")) then 15
    else 0
  let penalty : ℚ :=
    if strTruthy md.year && iy.isSome && !(iy == md.year) &&
       (hasSub nit npt || akas.any (fun t => hasSub nit t)) then -30
    else 0
  ratMax 0 (titleTerm + akaTerm + idTerm + penalty + ratMin ((item.seeders : ℚ) / 10) 5)

/-- The scoring model with the two bonuses the code actually adds on top of the
claimed model: +10 for an exact whole-normalized-title match and +10 when the
title contains the TMDB identifier. -/
def amendedMatchScore (item : V1Item) (md : V1Metadata) : ℚ :=
  let nit := normalizeStringAgg (item.title.getD "")
  let iy := itemYearMatch item.title
  let npt := normalizeStringAgg (md.title.getD "")
  let akas := md.akaTitles.map (fun t => normalizeStringAgg t)
  let yearEq := strTruthy md.year && (iy == md.year)
  let titleTerm : ℚ :=
    if !npt.isEmpty && hasSub nit npt && yearEq then 100
    else if !npt.isEmpty && hasSub nit npt then 50
    else 0
  let akaTerm : ℚ := (akas.map (fun aka =>
    if !aka.isEmpty && hasSub nit aka && yearEq then (40 : ℚ)
    else if !aka.isEmpty && hasSub nit aka then 20
    else 0)).sum
  let exactTerm : ℚ := if !npt.isEmpty && nit == npt then 10 else 0
  let idTerm : ℚ :=
    if strTruthy md.imdbId && hasSub nit (normalizeStringAgg (md.imdbId.getD "")) then 15
    else 0
  let tmdbTerm : ℚ :=
    match md.tmdbId with
    | some tid =>
      if tid != 0 && hasSub nit (normalizeStringAgg (toString tid)) then 10 else 0
    | none => 0
  let penalty : ℚ :=
    if strTruthy md.year && iy.isSome && !(iy == md.year) &&
       (hasSub nit npt || akas.any (fun t => hasSub nit t)) then -30
    else 0
  ratMax 0 (titleTerm + akaTerm + exactTerm + idTerm + tmdbTerm + penalty +
    ratMin ((item.seeders : ℚ) / 10) 5)

/-- `validateJackettResult`'s size filter. -/
def passesSizeFilter (cfg : V1Config) (item : V1Item) : Bool :=
  cfg.maxSize == 0 || item.size ≤ cfg.maxSize

/-- `validateJackettResult`'s resolution allow-list filter. -/
def passesResolutionFilter (cfg : V1Config) (item : V1Item) : Bool :=
  let r := (extractResolution (item.title.getD "")).getD "Unknown"
  cfg.preferredResolutions.isEmpty || cfg.preferredResolutions.contains r ||
    r == "Unknown"

/-- `validateJackettResult`'s language allow-list filter. -/
def passesLanguageFilter (cfg : V1Config) (item : V1Item) : Bool :=
  let lg := (extractLanguage (item.title.getD "")).getD "Unknown"
  cfg.preferredLanguages.isEmpty || cfg.preferredLanguages.contains lg ||
    lg == "Unknown"

/-- The first revision's `validateJackettResult(item, metadata, wasIdQuery,
config)`. -/
def validateJackettResult (item : V1Item) (md : V1Metadata) (wasIdQuery : Bool)
    (cfg : V1Config) : Bool :=
  let nit := normalizeStringAgg (item.title.getD "")
  let iy := itemYearMatch item.title
  if !strTruthy item.magnetUri then false
  else
    let npt := normalizeStringAgg (md.title.getD "")
    let akas := md.akaTitles.map (fun t => normalizeStringAgg t)
    let strong := (npt :: akas).any (fun t => !t.isEmpty && hasSub nit t)
    let cImdb := strTruthy md.imdbId && hasSub nit (normalizeStringAgg (md.imdbId.getD ""))
    let cTmdb :=
      match md.tmdbId with
      | some tid => tid != 0 && hasSub nit (normalizeStringAgg (toString tid))
      | none => false
    let yearMatches :=
      if strTruthy md.year && iy.isSome then
        match parseIntStr (iy.getD ""), parseIntStr (md.year.getD "") with
        | some a, some b => a == b
        | _, _ => false
      else true
    let passesTitle :=
      if wasIdQuery then
        if cImdb || cTmdb then
          strong || (!strTruthy md.title && decide (md.akaTitles.length = 0))
        else strong && yearMatches
      else
        let p1 := !npt.isEmpty && strTruthy md.year && hasSub nit npt && yearMatches
        let p2 := !md.akaTitles.isEmpty &&
          akas.any (fun aka => !aka.isEmpty && hasSub nit aka &&
            ((strTruthy md.year && yearMatches) || !strTruthy md.year))
        let p3 := !npt.isEmpty && hasSub nit npt
        p1 || p2 || p3
    if !passesTitle then false
    else passesSizeFilter cfg item && passesResolutionFilter cfg item &&
         passesLanguageFilter cfg item

/-! ## Concrete fixtures for the claims -/

/-- Worker configuration with no language preference. -/
def wCfgOpen : WConfig :=
  ⟨0, 0, 100000, [],
   ["remux", "bluray", "bdrip", "web-dl", "webrip", "hdrip", "hdtv", "dvdrip",
    "x265", "x264", "hevc", "xvid", "av1"],
   ["truehd", "dts-hd", "atmos", "dts", "eac3", "ddp", "ac3", "aac", "mp3"]⟩

/-- Same configuration but with a non-empty language allow-list. -/
def wCfgEnglish : WConfig :=
  ⟨0, 0, 100000, ["english"], wCfgOpen.videoPrefs, wCfgOpen.audioPrefs⟩

/-- Same configuration but requiring at least five seeders. -/
def wCfgSeeders : WConfig :=
  ⟨5, 0, 100000, [], wCfgOpen.videoPrefs, wCfgOpen.audioPrefs⟩

def mdAlphaMovie : Option WMetadata := some ⟨"Alpha", none, "movie"⟩

/-- A record with no detectable language. -/
def rAlpha : RawResult :=
  ⟨some "Alpha 1080p x264", some "ABC123", none, some 10, some 1048576000, none,
   none, none, none, none⟩

/-- First bearer of hash `abc123`; zero seeders. -/
def rDupFirst : RawResult :=
  ⟨some "Alpha 1080p x264", some "ABC123", none, some 0, some 1048576000, none,
   none, none, none, none⟩

/-- Second bearer of hash `abc123`; nine seeders. -/
def rDupSecond : RawResult :=
  ⟨some "Alpha Again 1080p x264", some "ABC123", none, some 9, some 1048576000, none,
   none, none, none, none⟩

/-- A record whose title contains `ts` only inside the word `Hits`. -/
def rHits : RawResult :=
  ⟨some "Greatest Hits Collection 1080p x264", some "ABC456", none, some 10,
   some 1048576000, none, none, none, none, none⟩

/-- Scoring counterexample fixtures: an exact normalized-title match. -/
def v1ItemAbc : V1Item := ⟨some "abc", some "magnet:?xt=urn:btih:abc", 0, 0⟩
def v1MdAbc : V1Metadata := ⟨some "abc", none, [], none, none⟩

/-- Validator counterexample fixtures: the raw title embeds the IMDB id and an
alternate title but not the primary title. -/
def v1ItemAka : V1Item :=
  ⟨some "Alpha.tt0111161.x264", some "magnet:?xt=urn:btih:abc", 3, 0⟩
def v1MdAka : V1Metadata := ⟨some "Zebra Film", none, ["Alpha"], some "tt0111161", none⟩
def v1CfgOpen : V1Config := ⟨0, [], []⟩

/-- Fixtures for the unknown-attribute filters: a title with neither resolution
nor language tokens, against non-empty allow-lists. -/
def v1ItemZulu : V1Item := ⟨some "Zulu.Quorum.x264", some "magnet:?xt=urn:btih:abc", 3, 0⟩
def v1CfgPrefs : V1Config := ⟨0, ["1080p"], ["English"]⟩

/-! # Theorems -/

/-- C1: the validator requires the `sNNeNN` marker in the *normalized* raw
title, but normalization strips exactly that marker, so the spec's concrete
scenario fails: `"Show.Name.S02E05.1080p.WEB-DL"` against season 2 / episode 5
is rejected (and so is the `S02E06` variant that the spec also expects to be
rejected).  Evaluation of the code at the spec's accepting input. -/
theorem c1_series_scenario_rejected :
    validateTorrentTitle (some ⟨"Show Name", none, "series"⟩) (some 2) (some 5)
      "Show.Name.S02E05.1080p.WEB-DL" = false ∧
    validateTorrentTitle (some ⟨"Show Name", none, "series"⟩) (some 2) (some 5)
      "Show.Name.S02E06.1080p.WEB-DL" = false ∧
    (standardizeTitle "Show.Name.S02E05.1080p.WEB-DL".data).1 = "show name web dl".data := by
  refine ⟨by decide, by decide, by decide⟩

/-- C2: the worker's movie-year check compares the year extracted from the
*metadata title string* (not `metadata.year`) with the year extracted from the
torrent title, and neither extraction fires here, so the spec's rejecting
scenario `"The Matrix Reloaded 2003 720p"` vs `{title: "The Matrix",
year: 1999}` is in fact accepted.  Evaluation of the code at the failing
input. -/
theorem c2_movie_year_scenario_accepted :
    validateTorrentTitle (some ⟨"The Matrix", some "1999", "movie"⟩) none none
      "The Matrix Reloaded 2003 720p" = true ∧
    (standardizeTitle "The Matrix".data).2 = none ∧
    (standardizeTitle "The Matrix Reloaded 2003 720p".data).2 = none := by
  refine ⟨by decide, by decide, by decide⟩

/-- C9: whenever the worker run settles abnormally — a posted structured error,
a transport (`error` event) failure, or a non-zero exit code — the stream
handler's `catch` substitutes the empty stream list: no partial result and no
retry (the handler is a total function of the single worker outcome). -/
theorem c9_worker_failure_empty :
    ∀ (maxStreams : Nat) (msg stk tmsg : String) (c : Int),
      handleStreamRequest maxStreams (.posted (.failure msg stk)) = [] ∧
      handleStreamRequest maxStreams (.transportError tmsg) = [] ∧
      handleStreamRequest maxStreams (.exitNonZero c) = [] := by
  intro maxStreams msg stk tmsg c
  exact ⟨rfl, rfl, rfl⟩

/-- C10: a record whose lower-cased title contains `ts` or `telecine` anywhere
(also inside an unrelated word) is dropped by the worker before identifier
derivation, validation and scoring: the loop body yields no stream and leaves
the state unchanged, for every configuration and metadata. -/
theorem c10_ts_prefilter (cfg : WConfig) (md : Option WMetadata)
    (season episode : Option Nat) (trackers seen : List String) (st : WState)
    (r : RawResult)
    (h : hasSub ((r.title.getD "").data.map Char.toLower) "ts".data = true ∨
         hasSub ((r.title.getD "").data.map Char.toLower) "telecine".data = true) :
    processResult cfg md season episode trackers seen r = none ∧
    processOne cfg md season episode trackers st r = st := by
  have hres : ∀ sn, processResult cfg md season episode trackers sn r = none := by
    intro sn
    unfold processResult
    rcases h with h | h <;> simp [h]
  refine ⟨hres seen, ?_⟩
  unfold processOne
  rw [hres st.hashes]

/-- Witness for C10 at a concrete record whose only occurrence of `ts` is
inside the word `Hits`. -/
theorem c10_ts_prefilter_witness :
    processResult wCfgOpen mdAlphaMovie none none [] [] rHits = none ∧
    processOne wCfgOpen mdAlphaMovie none none [] ⟨[], []⟩ rHits = ⟨[], []⟩ :=
  c10_ts_prefilter wCfgOpen mdAlphaMovie none none [] [] ⟨[], []⟩ rHits
    (Or.inl (by decide))

set_option maxHeartbeats 1000000 in
/-- The handler's comparator and the specification's multi-key comparator agree
pointwise (the final seed-count tie-break of the spec is subsumed by the
primary seed-count key). -/
theorem codeLe_eq_specLe (a b : WStream) : codeLe a b = specLe a b := by
  unfold codeLe specLe codeCmp
  split_ifs <;> first
    | rfl
    | (simp only [decide_eq_decide, decide_eq_true_eq]
       omega)

/-- Taking a prefix of a list is taking a prefix of length at most the list's
length. -/
theorem take_eq_take_min {α : Type} (l : List α) (n : Nat) :
    l.take n = l.take (min l.length n) := by
  rcases le_or_lt l.length n with h | h
  · rw [min_eq_left h, List.take_of_length_le h, List.take_length]
  · rw [min_eq_right (le_of_lt h)]

/-- C5: the delivered list is exactly the first `min(n, MAX_STREAMS)` elements
of the candidate list stably sorted by the spec's multi-key comparator
(seed count, publish date with missing dates as epoch zero, preferred-language
match, resolution rank, video-quality rank, audio-quality rank, seed count);
truncation happens only after the full sort. -/
theorem c5_sort_then_truncate (l : List WStream) (maxStreams : Nat) :
    deliveredCandidates maxStreams l =
      (l.mergeSort specLe).take (min l.length maxStreams) := by
  have hle : codeLe = specLe := funext fun a => funext fun b => codeLe_eq_specLe a b
  unfold deliveredCandidates finalSortedCandidates
  rw [hle, take_eq_take_min, List.length_mergeSort]

/-- C7 counterexample: for an identifier-seeded lookup, `validateJackettResult`
accepts a record whose normalized title does not contain the normalized
expected title (it matches an alternate title and embeds the IMDB id). -/
theorem c7_substring_cex :
    hasSub (normalizeStringAgg (v1ItemAka.title.getD ""))
           (normalizeStringAgg (v1MdAka.title.getD "")) = false ∧
    validateJackettResult v1ItemAka v1MdAka true v1CfgOpen = true := by
  exact ⟨by decide, by decide⟩

/-- C7 amended: the substring law holds for the worker's validator —
if the standardized expected title is not a substring of the standardized raw
title, `validateTorrentTitle` returns false regardless of kind, season and
episode.  (`validateJackettResult` may still accept via alternate titles or an
embedded identifier; see the counterexample.) -/
theorem c7_worker_substring_law (m : WMetadata) (season episode : Option Nat)
    (torrentTitle : String)
    (h : hasSub (standardizeTitle torrentTitle.data).1
          (standardizeTitle m.title.data).1 = false) :
    validateTorrentTitle (some m) season episode torrentTitle = false := by
  unfold validateTorrentTitle
  simp [h]

/-- Witness for the amended C7 at concrete unrelated titles. -/
theorem c7_worker_substring_law_witness :
    validateTorrentTitle (some ⟨"Zebra", none, "movie"⟩) none none
      "Alpha 1080p x264" = false :=
  c7_worker_substring_law ⟨"Zebra", none, "movie"⟩ none none "Alpha 1080p x264"
    (by decide)

/-- C8 counterexample: the claim's additive model has no exact-title bonus, so
it disagrees with the code on an exact normalized-title match (code: 60,
claimed model: 50). -/
theorem c8_score_cex :
    calculateMatchScore v1ItemAbc v1MdAbc = 60 ∧
    claimedMatchScore v1ItemAbc v1MdAbc = 50 ∧
    calculateMatchScore v1ItemAbc v1MdAbc ≠ claimedMatchScore v1ItemAbc v1MdAbc := by
  have h1 : normalizeStringAgg ((some "abc").getD "") = "abc".data := by decide
  have h2 : itemYearMatch (some "abc") = none := by decide
  have h3 : hasSub "abc".data "abc".data = true := by decide
  have h4 : strTruthy (none : Option String) = false := by decide
  have h5 : "abc".data.isEmpty = false := by decide
  have h6 : ("abc".data == "abc".data) = true := by decide
  have e1 : calculateMatchScore v1ItemAbc v1MdAbc = 60 := by
    simp only [calculateMatchScore, v1ItemAbc, v1MdAbc, h1, h2, h3, h4, h5, h6,
      List.map_nil, List.foldl_nil, List.any_nil, Option.isSome_none,
      Bool.and_true, Bool.true_and, Bool.and_false, Bool.false_and,
      Bool.not_false, Bool.not_true, Bool.or_false, Bool.false_or,
      if_true, if_false]
    norm_num [ratMin, ratMax]
  have e2 : claimedMatchScore v1ItemAbc v1MdAbc = 50 := by
    simp only [claimedMatchScore, v1ItemAbc, v1MdAbc, h1, h2, h3, h4, h5, h6,
      List.map_nil, List.sum_nil, List.any_nil, Option.isSome_none,
      Bool.and_true, Bool.true_and, Bool.and_false, Bool.false_and,
      Bool.not_false, Bool.not_true, Bool.or_false, Bool.false_or,
      if_true, if_false]
    norm_num [ratMin, ratMax]
  refine ⟨e1, e2, ?_⟩
  rw [e1, e2]
  norm_num

/-- `ratMax 0 x` is non-negative. -/
theorem ratMax_nonneg (x : ℚ) : 0 ≤ ratMax 0 x := by
  unfold ratMax
  split_ifs with h
  · exact h
  · exact le_refl 0

/-- Distributing a conditional-sum fold over a list (to align the sequential
aka-title accumulation with the additive model). -/
theorem scoreFold (nit : Str) (yearEq : Bool) :
    ∀ (akas : List Str) (init : ℚ),
      akas.foldl (fun acc aka =>
        if !aka.isEmpty && hasSub nit aka && yearEq then acc + 40
        else if !aka.isEmpty && hasSub nit aka then acc + 20
        else acc) init
      = init + (akas.map (fun aka =>
          if !aka.isEmpty && hasSub nit aka && yearEq then (40 : ℚ)
          else if !aka.isEmpty && hasSub nit aka then 20
          else 0)).sum := by
  intro akas
  induction akas with
  | nil => intro init; simp
  | cons a t ih =>
    intro init
    simp only [List.foldl_cons, List.map_cons, List.sum_cons]
    rw [ih]
    split_ifs <;> ring

set_option maxHeartbeats 4000000 in
/-- C8 amended: the code's score is the claimed additive model extended with
two further bonuses (+10 for an exact whole-normalized-title match, +10 when
the title contains the TMDB identifier); the result is deterministic and
always non-negative. -/
theorem c8_score_amended :
    ∀ (item : V1Item) (md : V1Metadata),
      calculateMatchScore item md = amendedMatchScore item md ∧
      0 ≤ calculateMatchScore item md := by
  intro item md
  constructor
  · simp only [calculateMatchScore, amendedMatchScore]
    rw [scoreFold]
    have hc : ∀ x y : ℚ, x = y → ratMax 0 x = ratMax 0 y := fun x y hxy => by rw [hxy]
    apply hc
    rcases md.tmdbId with _ | tid <;> dsimp only <;> split_ifs <;> ring1
  · simp only [calculateMatchScore]
    exact ratMax_nonneg _

set_option maxHeartbeats 1600000 in
theorem processResult_some_shape (cfg : WConfig) (md : Option WMetadata)
    (season episode : Option Nat) (trackers seen : List String) (r : RawResult)
    (strm : WStream)
    (h : processResult cfg md season episode trackers seen r = some strm) :
    strm.originalResult = r ∧ derivedHash r = some strm.infoHash ∧
    seen.contains strm.infoHash = false := by
  simp only [processResult] at h
  repeat' first
    | exact Option.noConfusion h
    | split at h
  all_goals
    injection h with h2
    subst h2
    refine ⟨rfl, by assumption, ?_⟩
    rw [← Bool.not_eq_true]
    assumption

set_option maxHeartbeats 1600000 in
theorem processResult_none_low_seeders (cfg : WConfig) (md : Option WMetadata)
    (season episode : Option Nat) (trackers seen : List String) (r : RawResult)
    (hs : r.seeders.getD 0 < cfg.minimumSeeders) :
    processResult cfg md season episode trackers seen r = none := by
  simp only [processResult]
  repeat' first
    | rfl
    | (exact absurd hs ‹_›)
    | split

set_option maxHeartbeats 1600000 in
theorem processResult_none_unknown_language (cfg : WConfig) (md : Option WMetadata)
    (season episode : Option Nat) (trackers seen : List String) (r : RawResult)
    (hne : cfg.preferredLanguages ≠ [])
    (hlang : strTruthy (if strTruthy r.language = true then r.language
        else (parseTorrentDetails cfg.videoPrefs cfg.audioPrefs
          (r.title.getD "")).language) = false) :
    processResult cfg md season episode trackers seen r = none := by
  have hcond : (decide (0 < cfg.preferredLanguages.length) &&
      (!strTruthy (if strTruthy r.language = true then r.language
          else (parseTorrentDetails cfg.videoPrefs cfg.audioPrefs
            (r.title.getD "")).language) ||
       !cfg.preferredLanguages.contains ((if strTruthy r.language = true then r.language
          else (parseTorrentDetails cfg.videoPrefs cfg.audioPrefs
            (r.title.getD "")).language).getD ""))) = true := by
    rw [hlang]
    simp [List.length_pos, hne]
  simp only [processResult]
  repeat' first
    | rfl
    | (exact absurd hcond ‹_›)
    | split

theorem processOne_none (cfg : WConfig) (md : Option WMetadata)
    (season episode : Option Nat) (trackers : List String) (st : WState) (r : RawResult)
    (h : processResult cfg md season episode trackers st.hashes r = none) :
    processOne cfg md season episode trackers st r = st := by
  unfold processOne
  rw [h]

theorem processOne_some (cfg : WConfig) (md : Option WMetadata)
    (season episode : Option Nat) (trackers : List String) (st : WState) (r : RawResult)
    (strm : WStream)
    (h : processResult cfg md season episode trackers st.hashes r = some strm) :
    processOne cfg md season episode trackers st r =
      ⟨st.streams ++ [strm], st.hashes ++ [strm.infoHash]⟩ := by
  unfold processOne
  rw [h]



theorem contains_true_iff (l : List String) (a : String) : l.contains a = true ↔ a ∈ l := by
  simp [List.contains]

set_option maxHeartbeats 1600000 in
theorem processResult_none_seen (cfg : WConfig) (md : Option WMetadata)
    (season episode : Option Nat) (trackers seen : List String) (r : RawResult) (hash : String)
    (hd : derivedHash r = some hash) (hmem : seen.contains hash = true) :
    processResult cfg md season episode trackers seen r = none := by
  simp only [processResult, hd, hmem, eq_self_iff_true, if_true, ite_self]

set_option maxHeartbeats 1600000 in
theorem processResult_passes (cfg : WConfig) (md : Option WMetadata)
    (season episode : Option Nat) (trackers seen : List String) (r : RawResult) (hash : String)
    (f1 : (hasSub (List.map Char.toLower (r.title.getD "").data) "ts".data ||
           hasSub (List.map Char.toLower (r.title.getD "").data) "telecine".data) = false)
    (f2 : (!strTruthy r.infoHash && !strTruthy r.magnetUri) = false)
    (f3 : derivedHash r = some hash)
    (f4 : seen.contains hash = false)
    (f5 : (!validateTorrentTitle md season episode (r.title.getD "")) = false)
    (f6 : ¬(getResolutionRank (if strTruthy r.resolution = true then r.resolution
        else (parseTorrentDetails cfg.videoPrefs cfg.audioPrefs (r.title.getD "")).resolution) <
        getResolutionRank (some "720p")))
    (f7 : ¬(r.seeders.getD 0 < cfg.minimumSeeders))
    (f8 : (decide (((r.size.getD 0 : Int) : ℚ) / (1024 * 1024) < cfg.minSizeMB) ||
           decide (((r.size.getD 0 : Int) : ℚ) / (1024 * 1024) > cfg.maxSizeMB)) = false)
    (f9 : (decide (0 < cfg.preferredLanguages.length) &&
        (!strTruthy (if strTruthy r.language = true then r.language
            else (parseTorrentDetails cfg.videoPrefs cfg.audioPrefs (r.title.getD "")).language) ||
         !cfg.preferredLanguages.contains ((if strTruthy r.language = true then r.language
            else (parseTorrentDetails cfg.videoPrefs cfg.audioPrefs
              (r.title.getD "")).language).getD ""))) = false) :
    ∃ strm, processResult cfg md season episode trackers seen r = some strm ∧
      strm.originalResult = r ∧ strm.infoHash = hash := by
  simp only [processResult, f1, f2, f3, f4, f5, f6, f7, f8, f9, Bool.false_eq_true,
    if_false, ite_false]
  exact ⟨_, rfl, rfl, rfl⟩




theorem processOne_inv (cfg : WConfig) (md : Option WMetadata)
    (season episode : Option Nat) (trackers : List String) (st : WState) (r : RawResult)
    (h : stateInv st) :
    stateInv (processOne cfg md season episode trackers st r) := by
  unfold processOne
  cases hpr : processResult cfg md season episode trackers st.hashes r with
  | none => exact h
  | some s =>
    unfold stateInv at *
    simp [h]

theorem processOne_nodup (cfg : WConfig) (md : Option WMetadata)
    (season episode : Option Nat) (trackers : List String) (st : WState) (r : RawResult)
    (_h : stateInv st) (hn : st.hashes.Nodup) :
    (processOne cfg md season episode trackers st r).hashes.Nodup := by
  unfold processOne
  cases hpr : processResult cfg md season episode trackers st.hashes r with
  | none => exact hn
  | some s =>
    have hshape := processResult_some_shape cfg md season episode trackers st.hashes r s hpr
    have hnotmem : s.infoHash ∉ st.hashes := by
      intro hmem
      rw [(contains_true_iff st.hashes s.infoHash).mpr hmem] at hshape
      exact Bool.noConfusion hshape.2.2
    simp only [List.nodup_append]
    exact ⟨hn, List.nodup_singleton _, by
      intro a ha hb
      rw [List.mem_singleton] at hb
      exact hnotmem (hb ▸ ha)⟩

theorem foldl_inv (cfg : WConfig) (md : Option WMetadata)
    (season episode : Option Nat) (trackers : List String) :
    ∀ (rs : List RawResult) (st : WState), stateInv st → st.hashes.Nodup →
      stateInv (rs.foldl (processOne cfg md season episode trackers) st) ∧
      (rs.foldl (processOne cfg md season episode trackers) st).hashes.Nodup := by
  intro rs
  induction rs with
  | nil => intro st h hn; exact ⟨h, hn⟩
  | cons r t ih =>
    intro st h hn
    exact ih _ (processOne_inv cfg md season episode trackers st r h)
      (processOne_nodup cfg md season episode trackers st r h hn)

theorem batch_hashes_nodup (cfg : WConfig) (md : Option WMetadata)
    (season episode : Option Nat) (trackers : List String) (rs : List RawResult) :
    ((processBatch cfg md season episode trackers rs).map (fun s => s.infoHash)).Nodup := by
  have h := foldl_inv cfg md season episode trackers rs ⟨[], []⟩ rfl List.nodup_nil
  have hinv : (rs.foldl (processOne cfg md season episode trackers) ⟨[], []⟩).hashes =
      (processBatch cfg md season episode trackers rs).map (fun s => s.infoHash) := h.1
  rw [← hinv]
  exact h.2

theorem batch_skip_seen (cfg : WConfig) (md : Option WMetadata)
    (season episode : Option Nat) (trackers : List String) (pre : List RawResult)
    (r : RawResult) (post : List RawResult) (hash : String)
    (hd : derivedHash r = some hash)
    (hmem : hash ∈ (processBatch cfg md season episode trackers pre).map
      (fun s => s.infoHash)) :
    processBatch cfg md season episode trackers (pre ++ r :: post) =
      processBatch cfg md season episode trackers (pre ++ post) := by
  have hinv : (pre.foldl (processOne cfg md season episode trackers) ⟨[], []⟩).hashes =
      (processBatch cfg md season episode trackers pre).map (fun s => s.infoHash) :=
    (foldl_inv cfg md season episode trackers pre ⟨[], []⟩ rfl List.nodup_nil).1
  have hcontains : (pre.foldl (processOne cfg md season episode trackers)
      ⟨[], []⟩).hashes.contains hash = true := by
    apply (contains_true_iff _ _).mpr
    rw [hinv]
    exact hmem
  unfold processBatch runWorker
  rw [List.foldl_append, List.foldl_append, List.foldl_cons]
  have hskip : processOne cfg md season episode trackers
      (pre.foldl (processOne cfg md season episode trackers) ⟨[], []⟩) r =
      pre.foldl (processOne cfg md season episode trackers) ⟨[], []⟩ :=
    processOne_none _ _ _ _ _ _ _
      (processResult_none_seen _ _ _ _ _ _ _ hash hd hcontains)
  rw [hskip]



/-- C3 counterexample: the worker's language filter violates the
unknown-is-permissive law — a record whose derived language is unknown
(`none`) is dropped when the language allow-list is non-empty, while the same
record yields a stream when the allow-list is empty, so the allow-list alone
excluded it. -/
theorem c3_unknown_language_dropped_cex :
    (if strTruthy rAlpha.language = true then rAlpha.language
     else (parseTorrentDetails wCfgEnglish.videoPrefs wCfgEnglish.audioPrefs
       (rAlpha.title.getD "")).language) = none ∧
    processBatch wCfgEnglish mdAlphaMovie none none [] [rAlpha] = [] ∧
    (processBatch wCfgOpen mdAlphaMovie none none [] [rAlpha]).length = 1 := by
  refine ⟨by decide, ?_, ?_⟩
  · simp only [processBatch, runWorker, List.foldl_cons, List.foldl_nil]
    rw [processOne_none wCfgEnglish mdAlphaMovie none none [] ⟨[], []⟩ rAlpha
      (processResult_none_unknown_language _ _ _ _ _ _ _ (by decide) (by decide))]
  · obtain ⟨strm, hstrm, _, _⟩ :=
      processResult_passes wCfgOpen mdAlphaMovie none none [] [] rAlpha "abc123"
        (by decide) (by decide) (by decide) (by decide) (by decide) (by decide) (by decide)
        (by
          have hs : ((rAlpha.size.getD 0 : Int) : ℚ) = 1048576000 := by norm_num [rAlpha]
          rw [hs]
          norm_num [wCfgOpen])
        (by decide)
    simp only [processBatch, runWorker, List.foldl_cons, List.foldl_nil]
    rw [processOne_some wCfgOpen mdAlphaMovie none none [] ⟨[], []⟩ rAlpha strm hstrm]
    rfl

/-- C4 counterexample: two records bear the same identifier `abc123`; the
first (zero seeders) fails the seeder filter, and the surviving stream is
derived from the *second* bearer — dedup is first-surviving-wins, not
first-bearer-wins, so a later record with an already-seen identifier is not
always discarded. -/
theorem c4_first_seen_cex :
    derivedHash rDupFirst = some "abc123" ∧ derivedHash rDupSecond = some "abc123" ∧
    rDupFirst.seeders = some 0 ∧
    (processBatch wCfgSeeders mdAlphaMovie none none [] [rDupFirst, rDupSecond]).map
      (fun s => s.originalResult) = [rDupSecond] := by
  refine ⟨by decide, by decide, by decide, ?_⟩
  have h1 : processResult wCfgSeeders mdAlphaMovie none none [] [] rDupFirst = none :=
    processResult_none_low_seeders _ _ _ _ _ _ _ (by decide)
  obtain ⟨strm, hstrm, horig, _⟩ :=
    processResult_passes wCfgSeeders mdAlphaMovie none none [] [] rDupSecond "abc123"
      (by decide) (by decide) (by decide) (by decide) (by decide) (by decide) (by decide)
      (by
        have hs : ((rDupSecond.size.getD 0 : Int) : ℚ) = 1048576000 := by
          norm_num [rDupSecond]
        rw [hs]
        norm_num [wCfgSeeders])
      (by decide)
  simp only [processBatch, runWorker, List.foldl_cons, List.foldl_nil]
  rw [processOne_none wCfgSeeders mdAlphaMovie none none [] ⟨[], []⟩ rDupFirst h1]
  rw [processOne_some wCfgSeeders mdAlphaMovie none none [] ⟨[], []⟩ rDupSecond strm hstrm]
  simp [horig]

/-- C4 amended: the output carries at most one stream per distinct
lower-cased identifier, and once an identifier has produced a stream, every
later record bearing that identifier is discarded (regardless of its
attributes); the surviving stream is the first record that bears the
identifier *and* passes all filters. -/
theorem c4_dedup_amended :
    ∀ (cfg : WConfig) (md : Option WMetadata) (season episode : Option Nat)
      (trackers : List String),
    (∀ rs, ((processBatch cfg md season episode trackers rs).map
      (fun s => s.infoHash)).Nodup) ∧
    (∀ (pre : List RawResult) (r : RawResult) (post : List RawResult) (hash : String),
      derivedHash r = some hash →
      hash ∈ (processBatch cfg md season episode trackers pre).map (fun s => s.infoHash) →
      processBatch cfg md season episode trackers (pre ++ r :: post) =
        processBatch cfg md season episode trackers (pre ++ post)) := by
  intro cfg md season episode trackers
  exact ⟨fun rs => batch_hashes_nodup cfg md season episode trackers rs,
    fun pre r post hash hd hmem =>
      batch_skip_seen cfg md season episode trackers pre r post hash hd hmem⟩

/-- Witness for the amended C4 at a concrete duplicate batch. -/
theorem c4_dedup_amended_witness :
    ((processBatch wCfgOpen mdAlphaMovie none none [] [rAlpha, rAlpha]).map
      (fun s => s.infoHash)).Nodup ∧
    processBatch wCfgOpen mdAlphaMovie none none [] [rAlpha, rAlpha] =
      processBatch wCfgOpen mdAlphaMovie none none [] [rAlpha] := by
  obtain ⟨hnodup, hskip⟩ := c4_dedup_amended wCfgOpen mdAlphaMovie none none []
  refine ⟨hnodup [rAlpha, rAlpha], ?_⟩
  have hmem : "abc123" ∈ (processBatch wCfgOpen mdAlphaMovie none none [] [rAlpha]).map
      (fun s => s.infoHash) := by
    obtain ⟨strm, hstrm, _, hhash⟩ :=
      processResult_passes wCfgOpen mdAlphaMovie none none [] [] rAlpha "abc123"
        (by decide) (by decide) (by decide) (by decide) (by decide) (by decide) (by decide)
        (by
          have hs : ((rAlpha.size.getD 0 : Int) : ℚ) = 1048576000 := by norm_num [rAlpha]
          rw [hs]
          norm_num [wCfgOpen])
        (by decide)
    simp only [processBatch, runWorker, List.foldl_cons, List.foldl_nil]
    rw [processOne_some wCfgOpen mdAlphaMovie none none [] ⟨[], []⟩ rAlpha strm hstrm]
    simp [hhash]
  exact hskip [rAlpha] rAlpha [] "abc123" (by decide) hmem

/-- C3 amended: the unknown-is-permissive law holds for
`validateJackettResult`'s resolution and language allow-lists (an unknown
derived value always passes), but not for the worker: the worker's language
filter drops a record whose consolidated language is unknown whenever the
language allow-list is non-empty. -/
theorem c3_unknown_allowlists_amended :
    ∀ (cfgv : V1Config) (item : V1Item) (cfg : WConfig) (md : Option WMetadata)
      (season episode : Option Nat) (trackers : List String) (st : WState) (r : RawResult),
    (extractResolution (item.title.getD "") = none → passesResolutionFilter cfgv item = true) ∧
    (extractLanguage (item.title.getD "") = none → passesLanguageFilter cfgv item = true) ∧
    (cfg.preferredLanguages ≠ [] →
      strTruthy (if strTruthy r.language = true then r.language
        else (parseTorrentDetails cfg.videoPrefs cfg.audioPrefs
          (r.title.getD "")).language) = false →
      processOne cfg md season episode trackers st r = st) := by
  intro cfgv item cfg md season episode trackers st r
  refine ⟨?_, ?_, ?_⟩
  · intro h
    simp [passesResolutionFilter, h]
  · intro h
    simp [passesLanguageFilter, h]
  · intro hne hlang
    exact processOne_none _ _ _ _ _ _ _
      (processResult_none_unknown_language _ _ _ _ _ _ _ hne hlang)

/-- Witness for the amended C3 at concrete items and configurations. -/
theorem c3_unknown_allowlists_witness :
    passesResolutionFilter v1CfgPrefs v1ItemZulu = true ∧
    passesLanguageFilter v1CfgPrefs v1ItemZulu = true ∧
    processOne wCfgEnglish mdAlphaMovie none none [] ⟨[], []⟩ rAlpha = ⟨[], []⟩ := by
  obtain ⟨h1, h2, h3⟩ := c3_unknown_allowlists_amended v1CfgPrefs v1ItemZulu wCfgEnglish
    mdAlphaMovie none none [] ⟨[], []⟩ rAlpha
  exact ⟨h1 (by decide), h2 (by decide), h3 (by decide) (by decide)⟩

/-! ## Idempotence of the title standardization (C6) -/

theorem toLower_toLower (c : Char) : c.toLower.toLower = c.toLower := by
  by_cases h : c.toNat ≥ 65 ∧ c.toNat ≤ 90
  · have h1 : c.toLower = Char.ofNat (c.toNat + 32) := by
      unfold Char.toLower
      rw [if_pos h]
    rw [h1]
    obtain ⟨n, hn⟩ : ∃ n, n = c.toNat := ⟨_, rfl⟩
    obtain ⟨h2, h3⟩ := h
    rw [← hn] at h2 h3 ⊢
    interval_cases n <;> decide
  · have h1 : c.toLower = c := by
      unfold Char.toLower
      rw [if_neg h]
    rw [h1, h1]

theorem ws_cases (c : Char) (h : isWs c = true) :
    c = ' ' ∨ c = '\t' ∨ c = '\r' ∨ c = '\n' := by
  unfold isWs Char.isWhitespace at h
  simp only [Bool.or_eq_true, decide_eq_true_eq] at h
  tauto

theorem ws_not_word (c : Char) (h : isWs c = true) : isWordChar c = false := by
  rcases ws_cases c h with h1 | h1 | h1 | h1 <;> subst h1 <;> decide

theorem mem_trimWs (l : Str) (c : Char) (h : c ∈ trimWs l) : c ∈ l := by
  unfold trimWs at h
  exact (List.dropWhile_suffix isWs).subset ((List.rdropWhile_prefix isWs _).subset h)

theorem mem_replaceRunsGo (cls : Char → Bool) (b : Bool) (l : Str) (c : Char)
    (h : c ∈ replaceRunsGo cls b l) : c = ' ' ∨ (c ∈ l ∧ cls c = false) := by
  induction l generalizing b with
  | nil => simp [replaceRunsGo] at h
  | cons d rest ih =>
    unfold replaceRunsGo at h
    by_cases hd : cls d
    · rw [if_pos hd] at h
      by_cases hb : b
      · subst hb
        rw [if_pos rfl] at h
        rcases ih true h with h1 | ⟨h1, h2⟩
        · exact Or.inl h1
        · exact Or.inr ⟨List.mem_cons_of_mem d h1, h2⟩
      · simp only [Bool.not_eq_true] at hb
        subst hb
        simp only [Bool.false_eq_true, if_false, List.mem_cons] at h
        rcases h with h | h
        · exact Or.inl h
        · rcases ih true h with h1 | ⟨h1, h2⟩
          · exact Or.inl h1
          · exact Or.inr ⟨List.mem_cons_of_mem d h1, h2⟩
    · simp only [Bool.not_eq_true] at hd
      rw [if_neg (by simp [hd])] at h
      rcases List.mem_cons.mp h with h | h
      · subst h
        exact Or.inr ⟨List.mem_cons_self c rest, hd⟩
      · rcases ih false h with h1 | ⟨h1, h2⟩
        · exact Or.inl h1
        · exact Or.inr ⟨List.mem_cons_of_mem d h1, h2⟩

theorem mem_stripTagsGo (fuel : Nat) (l : Str) (c : Char)
    (h : c ∈ stripTagsGo fuel l) : c = ' ' ∨ c ∈ l := by
  induction fuel generalizing l with
  | zero => exact Or.inr h
  | succ fuel ih =>
    match l with
    | [] => simp [stripTagsGo] at h
    | d :: rest =>
      unfold stripTagsGo at h
      rcases htag : tryTags (d :: rest) with _ | n <;> rw [htag] at h
      · rcases List.mem_cons.mp h with h | h
        · subst h
          exact Or.inr (List.mem_cons_self c rest)
        · rcases ih rest h with h1 | h1
          · exact Or.inl h1
          · exact Or.inr (List.mem_cons_of_mem d h1)
      · rcases List.mem_cons.mp h with h | h
        · exact Or.inl h
        · rcases ih _ h with h1 | h1
          · exact Or.inl h1
          · exact Or.inr (List.drop_subset n (d :: rest) h1)

theorem mem_removeYearRunsGo (ds : Str) (fuel : Nat) (l : Str) (c : Char)
    (h : c ∈ removeYearRunsGo ds fuel l) : c = ' ' ∨ c ∈ l := by
  induction fuel generalizing l with
  | zero => exact Or.inr h
  | succ fuel ih =>
    match l with
    | [] => simp [removeYearRunsGo] at h
    | d :: rest =>
      unfold removeYearRunsGo at h
      split at h
      · rcases List.mem_cons.mp h with h | h
        · exact Or.inl h
        · rcases ih _ h with h1 | h1
          · exact Or.inl h1
          · exact Or.inr (List.mem_cons_of_mem d (List.drop_subset _ rest h1))
      · rcases List.mem_cons.mp h with h | h
        · subst h
          exact Or.inr (List.mem_cons_self c rest)
        · rcases ih rest h with h1 | h1
          · exact Or.inl h1
          · exact Or.inr (List.mem_cons_of_mem d h1)

theorem mem_punctReplace (l : Str) (c : Char) (h : c ∈ punctReplace l) :
    c = ' ' ∨ (c ∈ l ∧ (isWordChar c || isWs c) = true) := by
  unfold punctReplace at h
  rcases List.mem_map.mp h with ⟨d, hd, he⟩
  by_cases hw : (isWordChar d || isWs d) = true
  · rw [if_pos hw] at he
    subst he
    exact Or.inr ⟨hd, hw⟩
  · rw [if_neg hw] at he
    exact Or.inl he.symm

theorem mem_replaceRuns (cls : Char → Bool) (l : Str) (c : Char)
    (h : c ∈ replaceRuns cls l) : c = ' ' ∨ (c ∈ l ∧ cls c = false) :=
  mem_replaceRunsGo cls false l c h

theorem head_replaceRunsGo_notws (l : Str) (c : Char)
    (h : (replaceRunsGo isWs true l).head? = some c) : isWs c = false := by
  induction l with
  | nil => simp [replaceRunsGo] at h
  | cons d rest ih =>
    unfold replaceRunsGo at h
    by_cases hd : isWs d
    · rw [if_pos hd, if_pos rfl] at h
      exact ih h
    · simp only [Bool.not_eq_true] at hd
      rw [if_neg (by simp [hd])] at h
      simp only [List.head?_cons, Option.some.injEq] at h
      subst h
      exact hd

theorem chain_replaceRunsGo_ws (b : Bool) (l : Str) :
    List.Chain' (fun x y => ¬(isWs x = true ∧ isWs y = true)) (replaceRunsGo isWs b l) := by
  induction l generalizing b with
  | nil => simp [replaceRunsGo]
  | cons d rest ih =>
    unfold replaceRunsGo
    by_cases hd : isWs d
    · rw [if_pos hd]
      cases b
      · simp only [Bool.false_eq_true, if_false]
        rw [List.chain'_cons']
        refine ⟨?_, ih true⟩
        intro y hy hcon
        exact absurd hcon.2 (by simp [head_replaceRunsGo_notws rest y hy])
      · simp only [if_true]
        exact ih true
    · simp only [Bool.not_eq_true] at hd
      rw [if_neg (by simp [hd])]
      rw [List.chain'_cons']
      refine ⟨?_, ih false⟩
      intro y _ hcon
      exact absurd hcon.1 (by simp [hd])

theorem chain_trimWs {R : Char → Char → Prop} (l : Str) (h : List.Chain' R l) :
    List.Chain' R (trimWs l) := by
  unfold trimWs
  have hsuf : l.dropWhile isWs <:+ l := List.dropWhile_suffix isWs
  obtain ⟨t1, ht1⟩ := hsuf
  obtain ⟨t2, ht2⟩ := List.rdropWhile_prefix isWs (l.dropWhile isWs)
  rw [← ht1] at h
  have h2 := (List.chain'_append.mp h).2.1
  rw [← ht2] at h2
  exact (List.chain'_append.mp h2).1

theorem trimWs_head_notws (l : Str) (c : Char) (h : (trimWs l).head? = some c) :
    isWs c = false := by
  unfold trimWs at h
  obtain ⟨t, ht⟩ := List.rdropWhile_prefix isWs (l.dropWhile isWs)
  have hw : (l.dropWhile isWs).head? = some c := by
    rw [← ht, List.head?_append, h]
    rfl
  have h2 := List.head?_dropWhile_not isWs l
  rw [hw] at h2
  exact h2

theorem trimWs_last_notws (l : Str) (hne : trimWs l ≠ []) :
    isWs ((trimWs l).getLast hne) = false := by
  have h2 := List.rdropWhile_last_not isWs (l.dropWhile isWs) hne
  simpa using h2

theorem wsCollapse_chain (l : Str) :
    List.Chain' (fun x y => ¬(x = ' ' ∧ y = ' ')) (wsCollapse l) := by
  have h := chain_trimWs _ (chain_replaceRunsGo_ws false l)
  refine h.imp ?_
  intro a b hab hsp
  obtain ⟨ha, hb⟩ := hsp
  subst ha
  subst hb
  exact hab ⟨by decide, by decide⟩

theorem wsCollapse_head (l : Str) (c : Char) (h : (wsCollapse l).head? = some c) :
    isWs c = false :=
  trimWs_head_notws _ c h

theorem wsCollapse_last (l : Str) (hne : wsCollapse l ≠ []) :
    isWs ((wsCollapse l).getLast hne) = false :=
  trimWs_last_notws _ hne

theorem map_id_of_mem {f : Char → Char} (l : Str) (h : ∀ c ∈ l, f c = c) :
    l.map f = l := by
  induction l with
  | nil => rfl
  | cons d rest ih =>
    simp only [List.map_cons]
    rw [h d (List.mem_cons_self d rest),
      ih (fun c hc => h c (List.mem_cons_of_mem d hc))]

theorem replaceRunsGo_id (cls : Char → Bool) (l : Str)
    (hmem : ∀ c ∈ l, cls c = true → c = ' ')
    (hch : List.Chain' (fun x y => ¬(x = ' ' ∧ y = ' ')) l) :
    replaceRunsGo cls false l = l ∧
      ((∀ c, l.head? = some c → cls c = false) → replaceRunsGo cls true l = l) := by
  induction l with
  | nil => exact ⟨rfl, fun _ => rfl⟩
  | cons d rest ih =>
    have hmem' : ∀ c ∈ rest, cls c = true → c = ' ' :=
      fun c hc => hmem c (List.mem_cons_of_mem d hc)
    obtain ⟨hhd, hch'⟩ := List.chain'_cons'.mp hch
    obtain ⟨ih1, ih2⟩ := ih hmem' hch'
    by_cases hd : cls d
    · have hds : d = ' ' := hmem d (List.mem_cons_self d rest) hd
      have hrest : ∀ c, rest.head? = some c → cls c = false := by
        intro c hc
        by_contra hcc
        simp only [Bool.not_eq_false] at hcc
        have hcs : c = ' ' := hmem' c (List.mem_of_mem_head? hc) hcc
        exact hhd c hc ⟨hds, hcs⟩
      constructor
      · unfold replaceRunsGo
        rw [if_pos hd]
        simp only [Bool.false_eq_true, if_false]
        rw [ih2 hrest, hds]
      · intro hhead
        exact absurd (hhead d rfl) (by simp [hd])
    · simp only [Bool.not_eq_true] at hd
      constructor
      · unfold replaceRunsGo
        rw [if_neg (by simp [hd]), ih1]
      · intro _
        unfold replaceRunsGo
        rw [if_neg (by simp [hd]), ih1]

theorem trimWs_id (l : Str)
    (hh : ∀ c, l.head? = some c → isWs c = false)
    (hlast : ∀ hne : l ≠ [], isWs (l.getLast hne) = false) :
    trimWs l = l := by
  unfold trimWs
  have hd : l.dropWhile isWs = l := by
    cases l with
    | nil => rfl
    | cons c rest =>
      rw [List.dropWhile_cons, if_neg (by simp [hh c rfl])]
  rw [hd, List.rdropWhile_eq_self_iff]
  intro hne
  simp [hlast hne]

theorem bracketYearMatch_none (l : Str) (h : ∀ c ∈ l, isOpenB c = false) :
    bracketYearMatch l = none := by
  induction l with
  | nil => rfl
  | cons d rest ih =>
    have h' : ∀ c ∈ rest, isOpenB c = false :=
      fun c hc => h c (List.mem_cons_of_mem d hc)
    have hd : isOpenB d = false := h d (List.mem_cons_self d rest)
    have key : bracketYearMatch (d :: rest) = bracketYearMatch rest := by
      rcases rest with _ | ⟨a, _ | ⟨b, _ | ⟨c, _ | ⟨e, _ | ⟨f, tl⟩⟩⟩⟩⟩
      · rfl
      · rfl
      · rfl
      · rfl
      · rfl
      · show (if (isOpenB d && a.isDigit && b.isDigit && c.isDigit && e.isDigit &&
              isCloseB f) = true
            then some [d, a, b, c, e, f] else bracketYearMatch (a :: b :: c :: e :: f :: tl))
          = bracketYearMatch (a :: b :: c :: e :: f :: tl)
        rw [hd]
        simp
    rw [key]
    exact ih h'

theorem standardizeCore_chars (yr : Option Nat) (t1 : Str) :
    ∀ c ∈ standardizeCore yr t1, normChar c := by
  intro c hc
  simp only [standardizeCore, wsCollapse] at hc
  rcases mem_replaceRuns isWs _ c (mem_trimWs _ c hc) with h1 | ⟨h1, hnw⟩
  · exact Or.inr h1
  have h4 : c = ' ' ∨
      c ∈ stripTags (sepCollapse (punctReplace (t1.map Char.toLower))) := by
    rcases yr with _ | y
    · exact Or.inr h1
    · dsimp only at h1
      by_cases hy : (y == 0) = true
      · rw [if_pos hy] at h1
        exact Or.inr h1
      · rw [if_neg hy] at h1
        exact mem_removeYearRunsGo _ _ _ c h1
  rcases h4 with h4 | h4
  · exact Or.inr h4
  simp only [stripTags] at h4
  rcases mem_stripTagsGo _ _ c h4 with h3 | h3
  · exact Or.inr h3
  simp only [sepCollapse] at h3
  rcases mem_replaceRuns sepCls _ c (mem_trimWs _ c h3) with h2 | ⟨h2, _⟩
  · exact Or.inr h2
  rcases mem_punctReplace _ c h2 with hp | ⟨hp, hwp⟩
  · exact Or.inr hp
  left
  constructor
  · rw [Bool.or_eq_true] at hwp
    rcases hwp with hw | hw
    · exact hw
    · rw [hw] at hnw
      exact absurd hnw (by simp)
  · rcases List.mem_map.mp hp with ⟨d, _, he⟩
    rw [← he]
    exact toLower_toLower d

theorem standardizeCore_chain (yr : Option Nat) (t1 : Str) :
    List.Chain' (fun x y => ¬(x = ' ' ∧ y = ' ')) (standardizeCore yr t1) :=
  wsCollapse_chain _

theorem standardizeCore_head (yr : Option Nat) (t1 : Str) (c : Char)
    (h : (standardizeCore yr t1).head? = some c) : isWs c = false :=
  wsCollapse_head _ c h

theorem standardizeCore_last (yr : Option Nat) (t1 : Str)
    (hne : standardizeCore yr t1 ≠ []) :
    isWs ((standardizeCore yr t1).getLast hne) = false :=
  wsCollapse_last _ hne

theorem standardizeCore_second (s : Str)
    (hP : ∀ c ∈ s, normChar c)
    (hch : List.Chain' (fun x y => ¬(x = ' ' ∧ y = ' ')) s)
    (hh : ∀ c, s.head? = some c → isWs c = false)
    (hlast : ∀ hne : s ≠ [], isWs (s.getLast hne) = false)
    (hstrip : stripTags s = s) :
    standardizeCore none s = s := by
  have h1 : s.map Char.toLower = s := by
    apply map_id_of_mem
    intro c hc
    rcases hP c hc with ⟨_, h2⟩ | h2
    · exact h2
    · subst h2
      decide
  have h2 : punctReplace s = s := by
    unfold punctReplace
    apply map_id_of_mem
    intro c hc
    rcases hP c hc with ⟨hw, _⟩ | hsp
    · rw [if_pos (by simp [hw])]
    · subst hsp
      rw [if_pos (by decide)]
  have h3 : sepCollapse s = s := by
    unfold sepCollapse
    have hrr : replaceRuns sepCls s = s := by
      unfold replaceRuns
      refine (replaceRunsGo_id sepCls s ?_ hch).1
      intro c hc hcls
      rcases hP c hc with ⟨hw, _⟩ | hsp
      · exfalso
        unfold sepCls at hcls
        simp only [Bool.or_eq_true, beq_iff_eq] at hcls
        rcases hcls with (hcl | hcl) | hcl
        · exact absurd (ws_not_word c hcl) (by simp [hw])
        · subst hcl
          exact absurd hw (by decide)
        · subst hcl
          exact absurd hw (by decide)
      · exact hsp
    rw [hrr]
    exact trimWs_id s hh hlast
  have h5 : wsCollapse s = s := by
    unfold wsCollapse
    have hrr : replaceRuns isWs s = s := by
      unfold replaceRuns
      refine (replaceRunsGo_id isWs s ?_ hch).1
      intro c hc hcls
      rcases hP c hc with ⟨hw, _⟩ | hsp
      · exact absurd (ws_not_word c hcls) (by simp [hw])
      · exact hsp
    rw [hrr]
    exact trimWs_id s hh hlast
  simp only [standardizeCore]
  rw [h1, h2, h3, hstrip, h5]

theorem standardizeTitle_shape (t : Str) :
    ∃ yr t1, standardizeTitle t = (standardizeCore yr t1, yr) := by
  unfold standardizeTitle
  rcases hb : bracketYearMatch t with _ | m
  · rcases ht : trailingYearMatch t with _ | m
    · exact ⟨none, t, rfl⟩
    · exact ⟨_, _, rfl⟩
  · exact ⟨_, _, rfl⟩

theorem standardizeTitle_second (s : Str)
    (hP : ∀ c ∈ s, normChar c)
    (hch : List.Chain' (fun x y => ¬(x = ' ' ∧ y = ' ')) s)
    (hh : ∀ c, s.head? = some c → isWs c = false)
    (hlast : ∀ hne : s ≠ [], isWs (s.getLast hne) = false)
    (hyear : trailingYearMatch s = none)
    (htags : stripTags s = s) :
    standardizeTitle s = (s, none) := by
  have hbr : bracketYearMatch s = none := by
    apply bracketYearMatch_none
    intro c hc
    rcases hP c hc with ⟨hw, _⟩ | hsp
    · by_contra hob
      simp only [Bool.not_eq_false] at hob
      unfold isOpenB at hob
      rw [Bool.or_eq_true] at hob
      simp only [beq_iff_eq] at hob
      rcases hob with h | h <;> subst h <;> exact absurd hw (by decide)
    · subst hsp
      decide
  unfold standardizeTitle
  rw [hbr, hyear]
  show (standardizeCore none s, (none : Option Nat)) = (s, none)
  rw [standardizeCore_second s hP hch hh hlast htags]

/-- **C6** (counterexample): title normalization is not idempotent.  On the
title "hello 1234 5678" one pass yields the text "hello 1234" (extracting the
trailing year 5678); a second pass on that text yields "hello" (extracting
1234), so re-normalizing the normalized text changes both the text and the
whole result. -/
theorem c6_idempotence_cex :
    standardizeTitle (standardizeTitle "hello 1234 5678".data).1 ≠
      standardizeTitle "hello 1234 5678".data ∧
    (standardizeTitle (standardizeTitle "hello 1234 5678".data).1).1 ≠
      (standardizeTitle "hello 1234 5678".data).1 := by
  constructor
  · decide
  · decide

/-- **C6** (amended): the standardized text is a fixed point of
`standardizeTitle` whenever it retains no trailing year and is already free of
release tags: in that case a second pass returns the same text and extracts no
year.  (The unconditional idempotence claim fails because a normalized title
may end in a four-digit token, which the second pass extracts as a year, or
retain a token that only becomes a strippable tag after normalization.) -/
theorem c6_idempotent_amended (t : Str)
    (hyear : trailingYearMatch (standardizeTitle t).1 = none)
    (htags : stripTags (standardizeTitle t).1 = (standardizeTitle t).1) :
    standardizeTitle (standardizeTitle t).1 = ((standardizeTitle t).1, none) := by
  obtain ⟨yr, t1, hshape⟩ := standardizeTitle_shape t
  have h1 : (standardizeTitle t).1 = standardizeCore yr t1 := by rw [hshape]
  rw [h1] at hyear htags ⊢
  exact standardizeTitle_second _ (standardizeCore_chars yr t1)
    (standardizeCore_chain yr t1) (standardizeCore_head yr t1)
    (standardizeCore_last yr t1) hyear htags

/-- Witness for the amended C6 idempotence law at the title "Movie Night":
its standardized text "movie night" has no trailing year and no release tag,
and a second pass fixes it. -/
theorem c6_idempotent_amended_witness :
    trailingYearMatch (standardizeTitle "Movie Night".data).1 = none ∧
    stripTags (standardizeTitle "Movie Night".data).1 =
      (standardizeTitle "Movie Night".data).1 ∧
    standardizeTitle (standardizeTitle "Movie Night".data).1 =
      ((standardizeTitle "Movie Night".data).1, none) :=
  ⟨by decide, by decide,
    c6_idempotent_amended ("Movie Night".data) (by decide) (by decide)⟩

end StremioJackett
